import Mathlib

/-
  Verification of the PKGBUILD parser / canonical pretty-printer
  (package `pkgbuild`): data model, mutation operations and renderer,
  embedded from the Go source. Go strings are modelled as lists of
  characters (runes), Go slices as lists, and the `Pkgbuild` map as an
  association list keyed by container name.
-/

set_option autoImplicit false

namespace Pkg

/-- Go `string`, modelled as its list of runes. -/
abbrev Str := List Char

-- Line-classification tags (`TD_*`).  The numeric values of these
-- constants are not in the provided source; only their distinctness is
-- used, so arbitrary distinct naturals are assigned.
def TD_BLANKCOMMENT : Nat := 0
def TD_VARIABLE : Nat := 1
def TD_FUNC : Nat := 2
def TD_UNKNOWN : Nat := 3

-- Container-category tags (`TC_*`), distinct naturals as above.
def TC_VARIABLE : Nat := 0
def TC_UVARIABLE : Nat := 1
def TC_FUNCTION : Nat := 2
def TC_SFUNCTION : Nat := 3
def TC_UFUNCTION : Nat := 4
def TC_UNKNOWN : Nat := 5
def TC_BLANKCOMMENT : Nat := 6

-- Unparse-style tags (`TU_*`), distinct naturals as above.
def TU_SINGLEVAR : Nat := 0
def TU_SINGLEVARQ : Nat := 1
def TU_OPTIONAL : Nat := 2
def TU_OPTIONALQ : Nat := 3
def TU_MULTIPLEVAR : Nat := 4
def TU_MULTIPLEVARQ : Nat := 5
def TU_MULTIPLELINES : Nat := 6
def TU_LINES : Nat := 7

-- Canonical key names.  The constants are not in the provided source;
-- their values are the PKGBUILD variable / function names they denote
-- (modelled from the spec's canonical key list).
def HEADER : Str := "header".toList
def PKGBASE : Str := "pkgbase".toList
def PKGNAME : Str := "pkgname".toList
def PKGVER : Str := "pkgver".toList
def PKGREL : Str := "pkgrel".toList
def EPOCH : Str := "epoch".toList
def PKGDESC : Str := "pkgdesc".toList
def ARCH : Str := "arch".toList
def URL : Str := "url".toList
def LICENSE : Str := "license".toList
def GROUPS : Str := "groups".toList
def DEPENDS : Str := "depends".toList
def MAKEDEPENDS : Str := "makedepends".toList
def CHECKDEPENDS : Str := "checkdepends".toList
def OPTDEPENDS : Str := "optdepends".toList
def PROVIDES : Str := "provides".toList
def CONFLICTS : Str := "conflicts".toList
def REPLACES : Str := "replaces".toList
def BACKUP : Str := "backup".toList
def OPTIONS : Str := "options".toList
def INSTALL : Str := "install".toList
def CHANGELOG : Str := "changelog".toList
def SOURCE : Str := "source".toList
def NOEXTRACT : Str := "noextract".toList
def MD5SUMS : Str := "md5sums".toList
def SHA1SUMS : Str := "sha1sums".toList
def SHA256SUMS : Str := "sha256sums".toList
def PREPARE : Str := "prepare".toList
def BUILD : Str := "build".toList
def CHECK : Str := "check".toList
def PACKAGE : Str := "package".toList

/-- Modelled from the spec: fixed sentinel name for unrecognized lines. -/
def UNKNOWN : Str := "unknown".toList

/-- Modelled from the spec: fixed sentinel name for blank/comment groups. -/
def BLANK : Str := "blank".toList

/-- Modelled from the spec: the known-variable table `L_VARIABLES`
(the recognized PKGBUILD variable names of the canonical key list). -/
def L_VARIABLES : List Str :=
  [PKGBASE, PKGNAME, PKGVER, PKGREL, EPOCH, PKGDESC, ARCH, URL, LICENSE,
   GROUPS, DEPENDS, MAKEDEPENDS, CHECKDEPENDS, OPTDEPENDS, PROVIDES,
   CONFLICTS, REPLACES, BACKUP, OPTIONS, INSTALL, CHANGELOG, SOURCE,
   NOEXTRACT, MD5SUMS, SHA1SUMS, SHA256SUMS]

/-- Modelled from the spec: the known-function table `L_FUNCTIONS`
(the build-lifecycle functions prepare, build, check, package). -/
def L_FUNCTIONS : List Str := [PREPARE, BUILD, CHECK, PACKAGE]

/-- Modelled from the spec: the style table `U_VARIABLES` mapping a
recognized variable name to its unparse style (single/quoted/list
styles per the spec; the checksum/source keys use the one-value-per-line
style, `arch` a collapse-to-scalar list style). -/
def U_VARIABLES (n : Str) : Nat :=
  if n = PKGBASE ∨ n = PKGVER ∨ n = PKGREL ∨ n = EPOCH then TU_SINGLEVAR
  else if n = PKGDESC ∨ n = URL ∨ n = INSTALL ∨ n = CHANGELOG then TU_SINGLEVARQ
  else if n = PKGNAME ∨ n = ARCH ∨ n = GROUPS ∨ n = LICENSE ∨ n = OPTIONS ∨ n = BACKUP then
    TU_OPTIONAL
  else if n = DEPENDS ∨ n = MAKEDEPENDS ∨ n = CHECKDEPENDS ∨ n = OPTDEPENDS ∨ n = PROVIDES ∨
          n = CONFLICTS ∨ n = REPLACES then TU_MULTIPLEVARQ
  else if n = SOURCE ∨ n = NOEXTRACT ∨ n = MD5SUMS ∨ n = SHA1SUMS ∨ n = SHA256SUMS then
    TU_MULTIPLELINES
  else TU_LINES

/-- `Data`: one atomic value of a container (tag, raw text, line). -/
structure Data where
  type : Nat
  Value : Str
  Line : Int
deriving DecidableEq, Repr

/-- `Container`: one named unit of the document. -/
structure Container where
  type : Nat
  Name : Str
  Begin : Int
  End : Int
  Values : List Data
deriving DecidableEq, Repr

/-- Parsed PKGBUILD: Go `map[string][]*Container`, modelled as an
association list from name to the list of containers with that name. -/
abbrev Pkgbuild := List (Str × List Container)

def NewData (t : Nat) (v : Str) (l : Int) : Data := ⟨t, v, l⟩

def NewPkgbuild : Pkgbuild := []

/-- Go `strings.HasPrefix`. -/
def startsWith (s p : Str) : Bool := decide (p <+: s)

/-- Modelled from the spec: `quotify` (quoted rendering of a value,
spec: `name="value"`). -/
def quotify (s : Str) : Str := '"' :: s ++ ['"']

def Data.Quote (d : Data) : Str := quotify d.Value

/-- Modelled from the spec: `joinData` joins the rendered values, with a
space separator when `split` and each value quoted when `quote`. -/
def joinData (vs : List Data) (split quote : Bool) : Str :=
  List.intercalate (if split then [' '] else [])
    (vs.map (fun d => if quote then quotify d.Value else d.Value))

/-- Go single-quote character (written by code point to keep it textual). -/
def squote : Char := Char.ofNat 39

/-- Modelled from the spec: `splitString` tokenizer state. -/
structure SplitSt where
  cur : Str
  toks : List Str
  quo : Option Char
deriving Repr

/-- Modelled from the spec: one tokenizer step (split on unquoted
whitespace, honoring single/double quoting). -/
def splitStep (st : SplitSt) (ch : Char) : SplitSt :=
  match st.quo with
  | some q =>
    if ch = q then { st with cur := st.cur ++ [ch], quo := none }
    else { st with cur := st.cur ++ [ch] }
  | none =>
    if ch = ' ' ∨ ch = '\t' then
      if st.cur = [] then st else { cur := [], toks := st.toks ++ [st.cur], quo := none }
    else if ch = '"' ∨ ch = squote then { st with cur := st.cur ++ [ch], quo := some ch }
    else { st with cur := st.cur ++ [ch] }

/-- Modelled from the spec: `splitString` — a parenthesized value is
tokenized into a list honoring quoting; anything else is one raw token. -/
def splitString (s : Str) : List Str :=
  if startsWith s ['('] ∧ s.getLast? = some ')' then
    let inner := (s.drop 1).dropLast
    let st := inner.foldl splitStep ⟨[], [], none⟩
    if st.cur = [] then st.toks else st.toks ++ [st.cur]
  else [s]

/-- `Container.Append`: add data into a container (Go variadic slice
becomes a list parameter). -/
def Container.Append (c : Container) (t : Nat) (i : Int) (v : List Str) : Container :=
  { c with Values := c.Values ++ v.map (fun e => NewData t e i) }

/--
`NewContainer`, embedded as a function of the classifier's output.
The classifier `lineType` itself is not part of the provided source;
modelled from the spec, it yields the tag `t` and the extracted raw
sub-fields `d` (for a variable assignment: whole line, name, value text;
for a function header: name, whole line).  `i` is the line number.
-/
def NewContainer (t : Nat) (d : List Str) (i : Int) : Container :=
  if t = TD_VARIABLE then
    let name := d.getD 1 []
    let ty := if name ∈ L_VARIABLES then TC_VARIABLE else TC_UVARIABLE
    Container.Append ⟨ty, name, i, 0, []⟩ t i (splitString (d.getD 2 []))
  else if t = TD_FUNC then
    let name := d.getD 0 []
    let line := d.getD 1 []
    let ty :=
      if startsWith line ("package_".toList) then TC_SFUNCTION
      else if name ∈ L_FUNCTIONS then TC_FUNCTION
      else TC_UFUNCTION
    Container.Append ⟨ty, name, i, 0, []⟩ t i [line]
  else if t = TD_UNKNOWN then
    Container.Append ⟨TC_UNKNOWN, UNKNOWN, i, 0, []⟩ t i [d.getD 0 []]
  else
    Container.Append ⟨TC_BLANKCOMMENT, BLANK, i, 0, []⟩ t i [d.getD 0 []]

/-- `Container.UnparseType`. -/
def Container.UnparseType (c : Container) : Nat :=
  if c.type = TC_VARIABLE then U_VARIABLES c.Name
  else if c.type = TC_UVARIABLE then TU_OPTIONALQ
  else TU_LINES

/-- The `TU_MULTIPLELINES` loop of `Container.Lines`: state `out` is the
emitted lines, `s` the pending line, `t` the alignment padding. -/
def multiLoop (t : Str) (out : List Str) (s : Str) : List Data → List Str
  | [] => out ++ [s ++ [')']]
  | d :: ds => multiLoop t (out ++ [s]) (t ++ d.Quote) ds

/-- The default (verbatim) loop of `Container.Lines`: emit each value's
text unless it is empty and directly follows an empty one (`blank`
records whether the previous value was empty). -/
def verbLoop (blank : Bool) (out : List Str) : List Data → List Str
  | [] => out
  | d :: ds =>
    verbLoop (d.Value = []) (if d.Value ≠ [] ∨ blank = false then out ++ [d.Value] else out) ds

/-- `Container.Lines`: render one container to its output lines. -/
def Container.Lines (c : Container) : List Str :=
  if c.UnparseType = TU_SINGLEVAR then
    [c.Name ++ ['='] ++ joinData c.Values false false]
  else if c.UnparseType = TU_SINGLEVARQ then
    [c.Name ++ ['='] ++ quotify (joinData c.Values false false)]
  else if c.UnparseType = TU_OPTIONAL then
    if 1 < c.Values.length then
      [c.Name ++ ['=', '('] ++ joinData c.Values true true ++ [')']]
    else
      [c.Name ++ ['='] ++ joinData c.Values false false]
  else if c.UnparseType = TU_OPTIONALQ then
    if 1 < c.Values.length then
      [c.Name ++ ['=', '('] ++ joinData c.Values true true ++ [')']]
    else
      [c.Name ++ ['='] ++ joinData c.Values true true]
  else if c.UnparseType = TU_MULTIPLEVAR then
    [c.Name ++ ['=', '('] ++ joinData c.Values true false ++ [')']]
  else if c.UnparseType = TU_MULTIPLEVARQ then
    [c.Name ++ ['=', '('] ++ joinData c.Values true true ++ [')']]
  else if c.UnparseType = TU_MULTIPLELINES then
    match c.Values with
    | [] => [c.Name ++ ['=', '(', ')']]
    | v :: rest =>
      multiLoop (List.replicate (c.Name ++ ['=', '(']).length ' ') []
        ((c.Name ++ ['=', '(']) ++ v.Quote) rest
  else
    verbLoop false [] c.Values

/-- `Container.Empty`. -/
def Container.Empty (c : Container) : Bool := c.Values.length = 0

/-- In-place replacement of the text of the value at index `n` of a
value list, keeping its tag and line (library-level description of the
Go assignment `Values[n].Value = v`). -/
def replaceValue (l : List Data) (n : Nat) (v : Str) : List Data :=
  let d0 := l.getD n (NewData 0 [] 0)
  l.set n ({ d0 with Value := v })

/-- Elementwise replacement of the text of the value at an index
(Go `c.Values[idx].Value = v`, which keeps the value's tag and line). -/
def setValueText : List Data → Nat → Str → List Data
  | [], _, _ => []
  | d :: ds, 0, v => { d with Value := v } :: ds
  | d :: ds, n + 1, v => d :: setValueText ds n v

/-- `Container.Set`: modify a data of a container; if blank, remove it.
Returns the updated container together with the Go boolean result. -/
def Container.Set (c : Container) (idx : Int) (v : Str) : Container × Bool :=
  if idx < 0 ∨ (c.Values.length : Int) ≤ idx then (c, false)
  else if v = [] then ({ c with Values := c.Values.eraseIdx idx.toNat }, true)
  else ({ c with Values := setValueText c.Values idx.toNat v }, true)

/-- Map lookup `p[k]` with its `ok` flag (first matching key). -/
def Pkgbuild.find : Pkgbuild → Str → Option (List Container)
  | [], _ => none
  | (k2, lc) :: rest, k => if k2 = k then some lc else Pkgbuild.find rest k

/-- Map lookup defaulting to the empty list. -/
def Pkgbuild.get (p : Pkgbuild) (k : Str) : List Container := (p.find k).getD []

/-- Map update of an existing key (replace first matching binding). -/
def Pkgbuild.setKey : Pkgbuild → Str → List Container → Pkgbuild
  | [], _, _ => []
  | (k2, lc2) :: rest, k, lc => if k2 = k then (k2, lc) :: rest else (k2, lc2) :: Pkgbuild.setKey rest k lc

/-- One step of `Pkgbuild.Insert`: append the container under its own
name key, creating the binding if the key is absent. -/
def Pkgbuild.insert1 : Pkgbuild → Container → Pkgbuild
  | [], c => [(c.Name, [c])]
  | (k, lc) :: rest, c =>
    if k = c.Name then (k, lc ++ [c]) :: rest else (k, lc) :: Pkgbuild.insert1 rest c

/-- `Pkgbuild.Insert` (Go variadic slice becomes a list parameter). -/
def Pkgbuild.Insert (p : Pkgbuild) (cont : List Container) : Pkgbuild :=
  cont.foldl Pkgbuild.insert1 p

/-- `Pkgbuild.Remove`: remove a container by its key and its position. -/
def Pkgbuild.Remove (p : Pkgbuild) (k : Str) (i : Int) : Pkgbuild × Bool :=
  match p.find k with
  | some lc =>
    if 0 ≤ i ∧ i < (lc.length : Int) then (p.setKey k (lc.eraseIdx i.toNat), true)
    else (p, false)
  | none => (p, false)

/-- `Pkgbuild.Sort`: all containers of the PKGBUILD, sorted by begin
line (Go's `sort.Sort` over the map's containers; insertion sort is
used here as the sorting algorithm). -/
def Pkgbuild.Sort (p : Pkgbuild) : List Container :=
  List.insertionSort (fun a b => a.Begin ≤ b.Begin) (p.flatMap Prod.snd)

/-- `Pkgbuild.Order`: map from each container (in begin-line order) to
its immediate predecessor, modelled as the list of such pairs. -/
def Pkgbuild.Order (p : Pkgbuild) : List (Container × Container) :=
  let cs := p.Sort
  (cs.drop 1).zip cs

/-- Modelled from the spec: the renderer helper `getLinesByKey` is not
in the provided source; per the spec it emits the entries stored under
one name key in canonical-index order (sorted by begin line).  This is
the lines contribution of one key. -/
def Pkgbuild.keyLines (p : Pkgbuild) (k : Str) : List Str :=
  (List.insertionSort (fun a b => a.Begin ≤ b.Begin) (p.get k)).flatMap Container.Lines

/-- Modelled from the spec: the renderer helper `getLinesByType` is not
in the provided source; per the spec it emits all entries of one
category in canonical-index order.  This is the lines contribution of
one category tag. -/
def Pkgbuild.typeLines (p : Pkgbuild) (t : Nat) : List Str :=
  (p.Sort.filter (fun c => c.type == t)).flatMap Container.Lines

/-- Modelled from the spec: `getLinesByKey` appends one key's lines to
the accumulated output (Go passes `lines` by pointer). -/
def getLinesByKey (p : Pkgbuild) (_o : List (Container × Container)) (k : Str)
    (lines : List Str) : List Str :=
  lines ++ p.keyLines k

/-- Modelled from the spec: `getLinesByType` appends one category's
lines to the accumulated output. -/
def getLinesByType (p : Pkgbuild) (_o : List (Container × Container)) (t : Nat)
    (lines : List Str) : List Str :=
  lines ++ p.typeLines t

/-- The flat clone of the document built at the start of
`Pkgbuild.Lines` (`pc`): every container re-inserted into a fresh map. -/
def Pkgbuild.canonCopy (p : Pkgbuild) : Pkgbuild :=
  NewPkgbuild.Insert (p.flatMap Prod.snd)

/-- `Pkgbuild.Lines`: render the whole document. -/
def Pkgbuild.Lines (p : Pkgbuild) : List Str :=
  let pc := p.canonCopy
  let o := pc.Order
  let lines : List Str := []
  let lines := getLinesByKey pc o HEADER lines
  let lines := getLinesByKey pc o PKGBASE lines
  let lines := getLinesByKey pc o PKGNAME lines
  let lines := getLinesByKey pc o PKGVER lines
  let lines := getLinesByKey pc o PKGREL lines
  let lines := getLinesByKey pc o EPOCH lines
  let lines := getLinesByKey pc o PKGDESC lines
  let lines := getLinesByKey pc o ARCH lines
  let lines := getLinesByKey pc o URL lines
  let lines := getLinesByKey pc o LICENSE lines
  let lines := getLinesByKey pc o GROUPS lines
  let lines := getLinesByKey pc o DEPENDS lines
  let lines := getLinesByKey pc o MAKEDEPENDS lines
  let lines := getLinesByKey pc o CHECKDEPENDS lines
  let lines := getLinesByKey pc o OPTDEPENDS lines
  let lines := getLinesByKey pc o PROVIDES lines
  let lines := getLinesByKey pc o CONFLICTS lines
  let lines := getLinesByKey pc o REPLACES lines
  let lines := getLinesByKey pc o BACKUP lines
  let lines := getLinesByKey pc o OPTIONS lines
  let lines := getLinesByKey pc o INSTALL lines
  let lines := getLinesByKey pc o CHANGELOG lines
  let lines := getLinesByKey pc o SOURCE lines
  let lines := getLinesByKey pc o NOEXTRACT lines
  let lines := getLinesByKey pc o MD5SUMS lines
  let lines := getLinesByKey pc o SHA1SUMS lines
  let lines := getLinesByKey pc o SHA256SUMS lines
  let lines := getLinesByType pc o TC_UVARIABLE lines
  let lines := getLinesByKey pc o PREPARE lines
  let lines := getLinesByKey pc o BUILD lines
  let lines := getLinesByKey pc o CHECK lines
  let lines := getLinesByKey pc o PACKAGE lines
  let lines := getLinesByType pc o TC_SFUNCTION lines
  let lines := getLinesByType pc o TC_UFUNCTION lines
  let lines := getLinesByType pc o TC_UNKNOWN lines
  lines

/-- The canonical key sequence of `Pkgbuild.Lines` before the
unrecognized-variable block. -/
def canonVarKeys : List Str :=
  [HEADER, PKGBASE, PKGNAME, PKGVER, PKGREL, EPOCH, PKGDESC, ARCH, URL,
   LICENSE, GROUPS, DEPENDS, MAKEDEPENDS, CHECKDEPENDS, OPTDEPENDS,
   PROVIDES, CONFLICTS, REPLACES, BACKUP, OPTIONS, INSTALL, CHANGELOG,
   SOURCE, NOEXTRACT, MD5SUMS, SHA1SUMS, SHA256SUMS]

/-- The lifecycle-function key sequence of `Pkgbuild.Lines`. -/
def canonFunKeys : List Str := [PREPARE, BUILD, CHECK, PACKAGE]

-- From here on: specification-side definitions, written from the
-- spec's words, to be compared with the renderer embedded above.

/-- Append a suffix to the last element of a list of lines. -/
def appendLast : List Str → Str → List Str
  | [], _ => []
  | [a], x => [a ++ x]
  | a :: b :: rest, x => a :: appendLast (b :: rest) x

/-- Specification of the one-value-per-line layout, following the
spec's words: open with `name=(` followed by the first quoted value,
align each further quoted value under the first with spaces equal in
width to the opening text, append the closing paren to the final line;
an empty list renders as `name=()`. -/
def multilineLayout (name : Str) (vals : List Data) : List Str :=
  match vals with
  | [] => [name ++ ['=', '(', ')']]
  | v :: rest =>
    appendLast
      ((name ++ ['=', '('] ++ quotify v.Value) ::
        rest.map (fun d => List.replicate (name ++ ['=', '(']).length ' ' ++ quotify d.Value))
      [')']

/-- Specification of the verbatim dedup rule, following the spec's
words: each text is its own line unless it is an empty line directly
following another empty line. -/
def collapseRuns : List Str → List Str
  | [] => []
  | [l] => [l]
  | l1 :: l2 :: rest =>
    if l1 = [] ∧ l2 = [] then collapseRuns (l2 :: rest)
    else l1 :: collapseRuns (l2 :: rest)


/-- The pure tail of `verbLoop` (no accumulator): keep a line unless it
is empty with `blank` set; `blank` tracks emptiness of the previous
input line. -/
def skipEmpties (blank : Bool) : List Str → List Str
  | [] => []
  | l :: ls =>
    if l ≠ [] ∨ blank = false then l :: skipEmpties (l = []) ls
    else skipEmpties (l = []) ls

-- -- HELPER LEMMAS -- --

theorem appendLast_cons_cons (a b : Str) (rest : List Str) (x : Str) :
    appendLast (a :: b :: rest) x = a :: appendLast (b :: rest) x := rfl

theorem appendLast_length : ∀ (l : List Str) (x : Str), (appendLast l x).length = l.length
  | [], _ => rfl
  | [_], _ => rfl
  | _ :: b :: rest, x => by
    rw [appendLast_cons_cons]
    simp only [List.length_cons, appendLast_length (b :: rest) x]

theorem multiLoop_eq_appendLast (t : Str) :
    ∀ (ds : List Data) (out : List Str) (s : Str),
      multiLoop t out s ds = out ++ appendLast (s :: ds.map (fun d => t ++ d.Quote)) [')']
  | [], out, s => by simp [multiLoop, appendLast]
  | d :: ds, out, s => by
    rw [multiLoop, multiLoop_eq_appendLast t ds (out ++ [s]) (t ++ d.Quote)]
    simp [appendLast_cons_cons]

theorem verbLoop_eq_skipEmpties :
    ∀ (ds : List Data) (blank : Bool) (out : List Str),
      verbLoop blank out ds = out ++ skipEmpties blank (ds.map Data.Value)
  | [], _, out => by simp [verbLoop, skipEmpties]
  | d :: ds, blank, out => by
    rw [verbLoop, verbLoop_eq_skipEmpties ds (d.Value = []) _]
    simp only [List.map_cons, skipEmpties]
    by_cases h : d.Value ≠ [] ∨ blank = false <;> simp [h]

theorem collapseRuns_cons_of_ne (x : Str) (rest : List Str) (hx : x ≠ []) :
    collapseRuns (x :: rest) = x :: collapseRuns rest := by
  cases rest with
  | nil => simp [collapseRuns]
  | cons y r2 => simp [collapseRuns, hx]

theorem skipEmpties_eq_collapseRuns :
    ∀ l : List Str,
      skipEmpties false l = collapseRuns l ∧
      [] :: skipEmpties true l = collapseRuns ([] :: l)
  | [] => by constructor <;> simp [skipEmpties, collapseRuns]
  | x :: rest => by
    have IH := skipEmpties_eq_collapseRuns rest
    by_cases hx : x = []
    · subst hx
      constructor
      · simp only [skipEmpties, ne_eq, not_true_eq_false, false_or, if_pos rfl]
        simpa using IH.2
      · simp only [skipEmpties, ne_eq, not_true_eq_false, false_or]
        rw [if_neg (by simp)]
        have h2 : collapseRuns ([] :: [] :: rest) = collapseRuns ([] :: rest) := by
          simp [collapseRuns]
        rw [h2]
        simpa using IH.2
    · constructor
      · simp only [skipEmpties, ne_eq, hx, not_false_eq_true, true_or, if_pos]
        rw [collapseRuns_cons_of_ne x rest hx]
        simp [hx, IH.1]
      · simp only [skipEmpties, ne_eq, hx, not_false_eq_true, true_or, if_pos]
        have h2 : collapseRuns ([] :: x :: rest) = [] :: collapseRuns (x :: rest) := by
          simp [collapseRuns, hx]
        rw [h2, collapseRuns_cons_of_ne x rest hx]
        simp [hx, IH.1]

-- -- CLAIM THEOREMS -- --

/-- C3: a container with a collapse-to-scalar list style
(`TU_OPTIONAL` / `TU_OPTIONALQ`) renders as `name=(v1 v2 ...)` when it
has more than one value and as `name=value` without parentheses when it
has exactly one; an always-parenthesized style (`TU_MULTIPLEVAR` /
`TU_MULTIPLEVARQ`) keeps the parentheses unconditionally, so also with
exactly one value. -/
theorem container_lines_collapse_scalar (c : Container) :
    ((c.UnparseType = TU_OPTIONAL ∨ c.UnparseType = TU_OPTIONALQ) →
      (1 < c.Values.length →
        c.Lines = [c.Name ++ ['=', '('] ++ joinData c.Values true true ++ [')']]) ∧
      (c.Values.length = 1 →
        (c.UnparseType = TU_OPTIONAL →
          c.Lines = [c.Name ++ ['='] ++ joinData c.Values false false]) ∧
        (c.UnparseType = TU_OPTIONALQ →
          c.Lines = [c.Name ++ ['='] ++ joinData c.Values true true]))) ∧
    ((c.UnparseType = TU_MULTIPLEVAR →
        c.Lines = [c.Name ++ ['=', '('] ++ joinData c.Values true false ++ [')']]) ∧
     (c.UnparseType = TU_MULTIPLEVARQ →
        c.Lines = [c.Name ++ ['=', '('] ++ joinData c.Values true true ++ [')']])) := by
  constructor
  · intro h
    constructor
    · intro hlen
      rcases h with h | h <;>
        simp [Container.Lines, h, hlen, TU_SINGLEVAR, TU_SINGLEVARQ, TU_OPTIONAL,
          TU_OPTIONALQ, TU_MULTIPLEVAR, TU_MULTIPLEVARQ, TU_MULTIPLELINES, TU_LINES]
    · intro hlen
      constructor <;> intro h2 <;>
        simp [Container.Lines, h2, hlen, TU_SINGLEVAR, TU_SINGLEVARQ, TU_OPTIONAL,
          TU_OPTIONALQ, TU_MULTIPLEVAR, TU_MULTIPLEVARQ, TU_MULTIPLELINES, TU_LINES]
  · constructor <;> intro h <;>
      simp [Container.Lines, h, TU_SINGLEVAR, TU_SINGLEVARQ, TU_OPTIONAL,
        TU_OPTIONALQ, TU_MULTIPLEVAR, TU_MULTIPLEVARQ, TU_MULTIPLELINES, TU_LINES]

/-- C3 witness: an unrecognized-variable container (style
`TU_OPTIONALQ`) with two values renders parenthesized, and with exactly
one value renders without parentheses. -/
theorem container_lines_collapse_scalar_witness :
    Container.Lines ⟨TC_UVARIABLE, ("ab").toList, 0, 0,
        [⟨0, ("x").toList, 1⟩, ⟨0, ("y").toList, 2⟩]⟩ = [("ab=(\"x\" \"y\")").toList] ∧
    Container.Lines ⟨TC_UVARIABLE, ("ab").toList, 0, 0, [⟨0, ("x").toList, 1⟩]⟩ =
      [("ab=\"x\"").toList] := by
  constructor
  · exact (((container_lines_collapse_scalar _).1 (Or.inr (by decide))).1
      (by decide)).trans (by decide)
  · exact ((((container_lines_collapse_scalar _).1 (Or.inr (by decide))).2
      (by decide)).2 (by decide)).trans (by decide)

/-- C4: a container with the one-value-per-line style
(`TU_MULTIPLELINES`) renders exactly the layout of `multilineLayout`:
with n ≥ 1 values, n lines, the first `name=(` followed by the first
quoted value, every further value on its own line behind spaces equal
in width to `name=(`, the closing paren appended to the last line; with
zero values the single line `name=()`. -/
theorem container_lines_multiline (c : Container)
    (h : c.UnparseType = TU_MULTIPLELINES) :
    c.Lines = multilineLayout c.Name c.Values ∧
    (c.Values ≠ [] → c.Lines.length = c.Values.length) ∧
    (c.Values = [] → c.Lines = [c.Name ++ ['=', '(', ')']]) := by
  have hmain : c.Lines = multilineLayout c.Name c.Values := by
    cases hv : c.Values with
    | nil =>
      simp [Container.Lines, h, hv, multilineLayout, TU_SINGLEVAR, TU_SINGLEVARQ,
        TU_OPTIONAL, TU_OPTIONALQ, TU_MULTIPLEVAR, TU_MULTIPLEVARQ, TU_MULTIPLELINES,
        TU_LINES]
    | cons v rest =>
      simp only [Container.Lines, h, hv, multilineLayout, TU_SINGLEVAR, TU_SINGLEVARQ,
        TU_OPTIONAL, TU_OPTIONALQ, TU_MULTIPLEVAR, TU_MULTIPLEVARQ, TU_MULTIPLELINES,
        TU_LINES]
      rw [multiLoop_eq_appendLast]
      simp [Data.Quote]
  refine ⟨hmain, fun hne => ?_, fun hnil => ?_⟩
  · rw [hmain]
    cases hv : c.Values with
    | nil => exact absurd hv hne
    | cons v rest =>
      rw [multilineLayout, appendLast_length]
      simp
  · rw [hmain, hnil, multilineLayout]

/-- C4 witness: a `sha256sums` entry with three values renders as three
lines, opened by `sha256sums=(`, the next two aligned under the first
value, the last closing with `)`. -/
theorem container_lines_multiline_witness :
    Container.Lines ⟨TC_VARIABLE, SHA256SUMS, 0, 0,
        [⟨0, ("aa").toList, 1⟩, ⟨0, ("bb").toList, 2⟩, ⟨0, ("cc").toList, 3⟩]⟩ =
      [("sha256sums=(\"aa\"").toList,
       ("            \"bb\"").toList,
       ("            \"cc\")").toList] :=
  ((container_lines_multiline _ (by decide)).1).trans (by decide)

/-- C5 counterexample: a container whose `Values` sequence is empty for
which `Container.Lines` is nonetheless not the empty sequence (an
unrecognized variable renders the single line `foo=`). -/
theorem empty_container_renders_line :
    Container.Lines ⟨TC_UVARIABLE, ("foo").toList, 0, 0, []⟩ ≠ [] := by decide

/-- C5 amended: a container whose `Values` sequence is empty renders
zero lines when its style is the verbatim one (`TU_LINES`), and renders
exactly one line (such as `name=` or `name=()`) under every variable
style; rendering yields a value in every case (no error). -/
theorem container_lines_empty_values (c : Container) (h : c.Values = []) :
    (c.UnparseType = TU_LINES → c.Lines = []) ∧
    ((c.UnparseType = TU_SINGLEVAR ∨ c.UnparseType = TU_SINGLEVARQ ∨
      c.UnparseType = TU_OPTIONAL ∨ c.UnparseType = TU_OPTIONALQ ∨
      c.UnparseType = TU_MULTIPLEVAR ∨ c.UnparseType = TU_MULTIPLEVARQ ∨
      c.UnparseType = TU_MULTIPLELINES) → c.Lines.length = 1) := by
  constructor
  · intro h7
    simp [Container.Lines, h7, h, verbLoop, TU_SINGLEVAR, TU_SINGLEVARQ, TU_OPTIONAL,
      TU_OPTIONALQ, TU_MULTIPLEVAR, TU_MULTIPLEVARQ, TU_MULTIPLELINES, TU_LINES]
  · intro hd
    rcases hd with h2 | h2 | h2 | h2 | h2 | h2 | h2 <;>
      simp [Container.Lines, h2, h, TU_SINGLEVAR, TU_SINGLEVARQ, TU_OPTIONAL,
        TU_OPTIONALQ, TU_MULTIPLEVAR, TU_MULTIPLEVARQ, TU_MULTIPLELINES, TU_LINES]

/-- C5 witness (for the amended claim): an unrecognized variable with no
values renders exactly one line. -/
theorem container_lines_empty_values_witness :
    (Container.Lines ⟨TC_UVARIABLE, ("foo").toList, 0, 0, []⟩).length = 1 :=
  (container_lines_empty_values _ rfl).2 (Or.inr (Or.inr (Or.inr (Or.inl (by decide)))))

/-- C6: a container rendered with the verbatim style emits each value's
raw text as its own line in sequence order, except that an empty line
directly following another empty line is skipped (consecutive blank
runs collapse), exactly the `collapseRuns` of the values' texts. -/
theorem container_lines_verbatim (c : Container) (h : c.UnparseType = TU_LINES) :
    c.Lines = collapseRuns (c.Values.map Data.Value) := by
  have h1 : c.Lines = verbLoop false [] c.Values := by
    simp [Container.Lines, h, TU_SINGLEVAR, TU_SINGLEVARQ, TU_OPTIONAL, TU_OPTIONALQ,
      TU_MULTIPLEVAR, TU_MULTIPLEVARQ, TU_MULTIPLELINES, TU_LINES]
  rw [h1, verbLoop_eq_skipEmpties, List.nil_append, (skipEmpties_eq_collapseRuns _).1]

/-- C6 witness: a blank/comment group with texts `"" "" "# x" ""`
renders as `"" "# x" ""` (the doubled blank collapses). -/
theorem container_lines_verbatim_witness :
    Container.Lines ⟨TC_BLANKCOMMENT, BLANK, 0, 0,
        [⟨0, [], 1⟩, ⟨0, [], 2⟩, ⟨0, ("# x").toList, 3⟩, ⟨0, [], 4⟩]⟩ =
      [[], ("# x").toList, []] :=
  (container_lines_verbatim _ (by decide)).trans (by decide)

theorem get_insert1 (p : Pkgbuild) (c : Container) (k : Str) :
    (p.insert1 c).get k = if c.Name = k then p.get k ++ [c] else p.get k := by
  induction p with
  | nil =>
    by_cases h : c.Name = k <;>
      simp [Pkgbuild.insert1, Pkgbuild.get, Pkgbuild.find, h]
  | cons hd rest IH =>
    obtain ⟨k2, lc⟩ := hd
    by_cases h1 : k2 = c.Name <;> by_cases h2 : k2 = k
    · have h3 : c.Name = k := h1.symm.trans h2
      simp [Pkgbuild.insert1, Pkgbuild.get, Pkgbuild.find, h1, h2, h3]
    · have h3 : ¬ c.Name = k := fun he => h2 (h1.trans he)
      simp [Pkgbuild.insert1, Pkgbuild.get, Pkgbuild.find, h1, h3]
    · have h3 : ¬ c.Name = k := fun he => h1 (h2.trans he.symm)
      have h4 : ¬ k = c.Name := fun he => h3 he.symm
      simp [Pkgbuild.insert1, Pkgbuild.get, Pkgbuild.find, h1, h2, h3, h4]
    · simp only [Pkgbuild.insert1, if_neg h1]
      simp only [Pkgbuild.get, Pkgbuild.find, if_neg h2] at IH ⊢
      exact IH

theorem get_Insert (cs : List Container) : ∀ (p : Pkgbuild) (k : Str),
    (p.Insert cs).get k = p.get k ++ cs.filter (fun c => decide (c.Name = k)) := by
  induction cs with
  | nil => intro p k; simp [Pkgbuild.Insert]
  | cons c cs IH =>
    intro p k
    have hstep : (p.Insert (c :: cs)) = (p.insert1 c).Insert cs := rfl
    rw [hstep, IH, get_insert1]
    by_cases h : c.Name = k <;> simp [h]

/-- C7: `Pkgbuild.Insert` appends every given container under the map
key equal to that container's own name (creating the binding if the key
is absent): for each key `k`, the stored list after inserting `cs` is
the old list followed by exactly the containers of `cs` named `k`, in
their given order, and every other key is untouched; consequently the
invariant that every container sits under the key equal to its own name
is preserved by any `Insert`. -/
theorem pkgbuild_insert_appends (p : Pkgbuild) (cs : List Container) (k : Str) :
    (p.Insert cs).get k = p.get k ++ cs.filter (fun c => decide (c.Name = k)) ∧
    ((∀ k2 c, c ∈ p.get k2 → c.Name = k2) →
      ∀ k2 c, c ∈ (p.Insert cs).get k2 → c.Name = k2) := by
  refine ⟨get_Insert cs p k, fun hinv k2 c hc => ?_⟩
  rw [get_Insert] at hc
  rcases List.mem_append.mp hc with h | h
  · exact hinv k2 c h
  · have := List.of_mem_filter h
    exact of_decide_eq_true this

/-- C7 witness: inserting two containers named `a` and one named `b`
into the empty document stores them under their own names in insertion
order, and the name invariant holds afterwards. -/
theorem pkgbuild_insert_appends_witness :
    (NewPkgbuild.Insert
        [⟨TC_UVARIABLE, ("a").toList, 1, 0, []⟩, ⟨TC_UVARIABLE, ("b").toList, 2, 0, []⟩,
         ⟨TC_UVARIABLE, ("a").toList, 3, 0, []⟩]).get (("a").toList) =
      [⟨TC_UVARIABLE, ("a").toList, 1, 0, []⟩, ⟨TC_UVARIABLE, ("a").toList, 3, 0, []⟩] ∧
    (∀ k2 c, c ∈ (NewPkgbuild.Insert
        [⟨TC_UVARIABLE, ("a").toList, 1, 0, []⟩, ⟨TC_UVARIABLE, ("b").toList, 2, 0, []⟩,
         ⟨TC_UVARIABLE, ("a").toList, 3, 0, []⟩]).get k2 → c.Name = k2) := by
  constructor
  · exact ((pkgbuild_insert_appends NewPkgbuild _ _).1).trans (by decide)
  · exact (pkgbuild_insert_appends NewPkgbuild _ (("a").toList)).2
      (fun k2 c hc => absurd hc (by simp [NewPkgbuild, Pkgbuild.get, Pkgbuild.find]))

theorem setValueText_eq_set : ∀ (l : List Data) (n : Nat) (v : Str), n < l.length →
    setValueText l n v = replaceValue l n v
  | [], n, _, h => absurd h (by simp)
  | _ :: _, 0, v, _ => by simp [setValueText, replaceValue, List.getD]
  | _ :: ds, n + 1, v, h => by
    simp only [setValueText, replaceValue, List.set, List.getD_cons_succ]
    rw [setValueText_eq_set ds n v (by simpa using h)]
    simp [replaceValue]

/-- C8: `Container.Set` with an in-range index replaces the text of the
value at that index (keeping its tag and line) and answers `true` when
the replacement is non-empty; deletes that value from the sequence
(shrinking it by one, storing no empty string) and answers `true` when
the replacement is empty; and answers `false` leaving the container as
given when the index is negative or at least the number of values. -/
theorem container_set_spec (c : Container) (idx : Int) (v : Str) :
    (0 ≤ idx → idx < (c.Values.length : Int) → v ≠ [] →
      c.Set idx v = ({ c with Values := replaceValue c.Values idx.toNat v }, true)) ∧
    (0 ≤ idx → idx < (c.Values.length : Int) → v = [] →
      c.Set idx v = ({ c with Values := c.Values.eraseIdx idx.toNat }, true) ∧
      (c.Set idx v).1.Values.length + 1 = c.Values.length) ∧
    ((idx < 0 ∨ (c.Values.length : Int) ≤ idx) → c.Set idx v = (c, false)) := by
  refine ⟨fun h0 h1 hv => ?_, fun h0 h1 hv => ?_, fun hg => ?_⟩
  · have hg : ¬ (idx < 0 ∨ (c.Values.length : Int) ≤ idx) := by omega
    rw [Container.Set, if_neg hg, if_neg hv,
      setValueText_eq_set c.Values idx.toNat v (by omega)]
  · have hg : ¬ (idx < 0 ∨ (c.Values.length : Int) ≤ idx) := by omega
    have heq : c.Set idx v = ({ c with Values := c.Values.eraseIdx idx.toNat }, true) := by
      rw [Container.Set, if_neg hg, if_pos hv]
    refine ⟨heq, ?_⟩
    rw [heq]
    have hlt : idx.toNat < c.Values.length := by omega
    simp only [List.length_eraseIdx, hlt, if_pos]
    omega
  · rw [Container.Set, if_pos hg]

/-- C8 witness: on a two-value container, `Set 0 "z"` replaces in place,
`Set 0 ""` deletes the value (length shrinks to one), and `Set 5`
answers `false` without change. -/
theorem container_set_spec_witness :
    Container.Set ⟨TC_UVARIABLE, ("f").toList, 0, 0,
        [⟨9, ("a").toList, 1⟩, ⟨9, ("b").toList, 2⟩]⟩ 0 (("z").toList) =
      (⟨TC_UVARIABLE, ("f").toList, 0, 0, [⟨9, ("z").toList, 1⟩, ⟨9, ("b").toList, 2⟩]⟩, true) ∧
    Container.Set ⟨TC_UVARIABLE, ("f").toList, 0, 0,
        [⟨9, ("a").toList, 1⟩, ⟨9, ("b").toList, 2⟩]⟩ 0 [] =
      (⟨TC_UVARIABLE, ("f").toList, 0, 0, [⟨9, ("b").toList, 2⟩]⟩, true) ∧
    Container.Set ⟨TC_UVARIABLE, ("f").toList, 0, 0,
        [⟨9, ("a").toList, 1⟩, ⟨9, ("b").toList, 2⟩]⟩ 5 (("z").toList) =
      (⟨TC_UVARIABLE, ("f").toList, 0, 0, [⟨9, ("a").toList, 1⟩, ⟨9, ("b").toList, 2⟩]⟩, false) := by
  refine ⟨?_, ?_, ?_⟩
  · exact ((container_set_spec _ 0 _).1 (by decide) (by decide) (by decide)).trans (by decide)
  · exact (((container_set_spec _ 0 _).2.1 (by decide) (by decide) rfl).1).trans (by decide)
  · exact ((container_set_spec _ 5 _).2.2 (Or.inr (by decide)))

theorem prefix_append_paren (p name rest : Str) (hp : '(' ∉ p) :
    p <+: name ++ '(' :: rest ↔ p <+: name := by
  constructor
  · intro h
    rcases List.prefix_or_prefix_of_prefix h (List.prefix_append name ('(' :: rest)) with h2 | h2
    · exact h2
    · obtain ⟨t, ht⟩ := h2
      have h3 : t <+: '(' :: rest := by
        refine (List.prefix_append_right_inj name).mp ?_
        rw [ht]
        exact h
      cases t with
      | nil => rw [← ht, List.append_nil]
      | cons a t2 =>
        exfalso
        have ha : a = '(' := (List.cons_prefix_cons.mp h3).1
        apply hp
        rw [← ht, ha]
        exact List.mem_append_right name (List.mem_cons_self '(' t2)
  · intro h
    exact h.trans (List.prefix_append name ('(' :: rest))

/-- C9: a container built from a classified function-header line (name
plus the raw line, which starts with the name followed by an opening
paren) is categorized `TC_SFUNCTION` exactly when the function name
starts with `package_`; otherwise `TC_FUNCTION` exactly when the name is
in the known-function table; otherwise `TC_UFUNCTION`; and in all cases
the container's `Name` is the parsed function identifier. -/
theorem newcontainer_function_category (name rest : Str) (i : Int) :
    ((NewContainer TD_FUNC [name, name ++ '(' :: rest] i).type = TC_SFUNCTION ↔
      ("package_").toList <+: name) ∧
    (¬ ("package_").toList <+: name →
      ((NewContainer TD_FUNC [name, name ++ '(' :: rest] i).type = TC_FUNCTION ↔
        name ∈ L_FUNCTIONS)) ∧
    (¬ ("package_").toList <+: name → name ∉ L_FUNCTIONS →
      (NewContainer TD_FUNC [name, name ++ '(' :: rest] i).type = TC_UFUNCTION) ∧
    (NewContainer TD_FUNC [name, name ++ '(' :: rest] i).Name = name := by
  have hparen : ('(' : Char) ∉ ("package_").toList := by decide
  have htype : (NewContainer TD_FUNC [name, name ++ '(' :: rest] i).type =
      (if startsWith (name ++ '(' :: rest) (("package_").toList) = true then TC_SFUNCTION
       else if name ∈ L_FUNCTIONS then TC_FUNCTION else TC_UFUNCTION) := rfl
  have hname : (NewContainer TD_FUNC [name, name ++ '(' :: rest] i).Name = name := rfl
  by_cases hpfx : ("package_").toList <+: name
  · have hB : startsWith (name ++ '(' :: rest) (("package_").toList) = true :=
      decide_eq_true ((prefix_append_paren _ name rest hparen).mpr hpfx)
    have ht : (NewContainer TD_FUNC [name, name ++ '(' :: rest] i).type = TC_SFUNCTION := by
      rw [htype, if_pos hB]
    exact ⟨⟨fun _ => hpfx, fun _ => ht⟩, fun h => absurd hpfx h, fun h => absurd hpfx h, hname⟩
  · have hB : startsWith (name ++ '(' :: rest) (("package_").toList) = false :=
      decide_eq_false (fun h2 => hpfx ((prefix_append_paren _ name rest hparen).mp h2))
    have hnB : ¬ (startsWith (name ++ '(' :: rest) (("package_").toList) = true) := by
      rw [hB]
      exact Bool.false_ne_true
    have ht : (NewContainer TD_FUNC [name, name ++ '(' :: rest] i).type =
        (if name ∈ L_FUNCTIONS then TC_FUNCTION else TC_UFUNCTION) := by
      rw [htype, if_neg hnB]
    by_cases hm : name ∈ L_FUNCTIONS
    · have ht2 : (NewContainer TD_FUNC [name, name ++ '(' :: rest] i).type = TC_FUNCTION := by
        rw [ht, if_pos hm]
      refine ⟨⟨fun he => absurd (ht2.symm.trans he) (by decide), fun hp => absurd hp hpfx⟩,
        fun _ => ⟨fun _ => hm, fun _ => ht2⟩, fun _ hm2 => absurd hm hm2, hname⟩
    · have ht2 : (NewContainer TD_FUNC [name, name ++ '(' :: rest] i).type = TC_UFUNCTION := by
        rw [ht, if_neg hm]
      refine ⟨⟨fun he => absurd (ht2.symm.trans he) (by decide), fun hp => absurd hp hpfx⟩,
        fun _ => ⟨fun he => absurd (ht2.symm.trans he) (by decide), fun hmem => absurd hmem hm⟩,
        fun _ _ => ht2, hname⟩

/-- C9 witness: the names `package_kid`, `build` and `mystery` are
categorized split-package, recognized and unrecognized respectively,
each with `Name` equal to the parsed identifier. -/
theorem newcontainer_function_category_witness :
    (NewContainer TD_FUNC [("package_kid").toList,
        ("package_kid() \x7b").toList] 3).type = TC_SFUNCTION ∧
    (NewContainer TD_FUNC [("build").toList, ("build() \x7b").toList] 3).type = TC_FUNCTION ∧
    (NewContainer TD_FUNC [("mystery").toList, ("mystery() \x7b").toList] 3).type = TC_UFUNCTION := by
  refine ⟨?_, ?_, ?_⟩
  · exact (newcontainer_function_category (("package_kid").toList) ((") \x7b").toList) 3).1.mpr (by decide)
  · exact (newcontainer_function_category (("build").toList) ((") \x7b").toList) 3).2.1
      (by decide) |>.mpr (by decide)
  · exact (newcontainer_function_category (("mystery").toList) ((") \x7b").toList) 3).2.2.1
      (by decide) (by decide)

/-- C10: whenever a mutation reports failure — `Pkgbuild.Remove` with an
absent name or out-of-range position, or `Container.Set` with an
out-of-range index — the receiver is returned completely unchanged. -/
theorem failed_mutation_unchanged (p : Pkgbuild) (k : Str) (i : Int)
    (c : Container) (idx : Int) (v : Str) :
    ((p.Remove k i).2 = false → (p.Remove k i).1 = p) ∧
    ((c.Set idx v).2 = false → (c.Set idx v).1 = c) := by
  constructor
  · intro h
    cases hf : p.find k with
    | none => simp [Pkgbuild.Remove, hf]
    | some lc =>
      by_cases hr : 0 ≤ i ∧ i < (lc.length : Int)
      · exfalso
        simp [Pkgbuild.Remove, hf, hr] at h
      · simp [Pkgbuild.Remove, hf, hr]
  · intro h
    by_cases hg : idx < 0 ∨ (c.Values.length : Int) ≤ idx
    · simp [Container.Set, hg]
    · exfalso
      by_cases hv : v = [] <;> simp [Container.Set, hg, hv] at h

/-- C10 witness: removing from an empty document and setting index 0 of
a value-less container both fail and leave the receiver as it was. -/
theorem failed_mutation_unchanged_witness :
    (Pkgbuild.Remove [] (("a").toList) 0).1 = ([] : Pkgbuild) ∧
    (Container.Set ⟨TC_UVARIABLE, ("f").toList, 0, 0, []⟩ 0 (("z").toList)).1 =
      ⟨TC_UVARIABLE, ("f").toList, 0, 0, []⟩ :=
  ⟨(failed_mutation_unchanged [] (("a").toList) 0
      ⟨TC_UVARIABLE, ("f").toList, 0, 0, []⟩ 0 (("z").toList)).1 (by decide),
   (failed_mutation_unchanged [] (("a").toList) 0
      ⟨TC_UVARIABLE, ("f").toList, 0, 0, []⟩ 0 (("z").toList)).2 (by decide)⟩

/-- C2: `Pkgbuild.Lines` emits the document in a fixed canonical
sequence: the recognized variable keys in their hard-coded order, then
all unrecognized-variable entries, then the lifecycle functions
prepare, build, check, package, then split-package functions, then
unrecognized functions, then unrecognized lines — and in particular
every line of the `pkgver` block precedes every line of the `pkgrel`
block, regardless of their order in the source document. -/
theorem pkgbuild_lines_canonical_order (p : Pkgbuild) :
    p.Lines =
      (canonVarKeys.flatMap (fun k => p.canonCopy.keyLines k)) ++
      p.canonCopy.typeLines TC_UVARIABLE ++
      (canonFunKeys.flatMap (fun k => p.canonCopy.keyLines k)) ++
      p.canonCopy.typeLines TC_SFUNCTION ++
      p.canonCopy.typeLines TC_UFUNCTION ++
      p.canonCopy.typeLines TC_UNKNOWN ∧
    (∃ pre mid post,
      p.Lines =
        pre ++ p.canonCopy.keyLines PKGVER ++ mid ++ p.canonCopy.keyLines PKGREL ++ post) ∧
    (∀ k, p.canonCopy.get k =
      (p.flatMap Prod.snd).filter (fun c => decide (c.Name = k))) := by
  have hget : ∀ k, p.canonCopy.get k =
      (p.flatMap Prod.snd).filter (fun c => decide (c.Name = k)) := by
    intro k
    simpa [Pkgbuild.canonCopy, NewPkgbuild, Pkgbuild.get, Pkgbuild.find] using
      get_Insert (p.flatMap Prod.snd) NewPkgbuild k
  have hmain : p.Lines =
      (canonVarKeys.flatMap (fun k => p.canonCopy.keyLines k)) ++
      p.canonCopy.typeLines TC_UVARIABLE ++
      (canonFunKeys.flatMap (fun k => p.canonCopy.keyLines k)) ++
      p.canonCopy.typeLines TC_SFUNCTION ++
      p.canonCopy.typeLines TC_UFUNCTION ++
      p.canonCopy.typeLines TC_UNKNOWN := by
    simp [Pkgbuild.Lines, getLinesByKey, getLinesByType, canonVarKeys, canonFunKeys]
  refine ⟨hmain, ⟨p.canonCopy.keyLines HEADER ++ p.canonCopy.keyLines PKGBASE ++
      p.canonCopy.keyLines PKGNAME, [],
    p.canonCopy.keyLines EPOCH ++ p.canonCopy.keyLines PKGDESC ++
      p.canonCopy.keyLines ARCH ++ p.canonCopy.keyLines URL ++
      p.canonCopy.keyLines LICENSE ++ p.canonCopy.keyLines GROUPS ++
      p.canonCopy.keyLines DEPENDS ++ p.canonCopy.keyLines MAKEDEPENDS ++
      p.canonCopy.keyLines CHECKDEPENDS ++ p.canonCopy.keyLines OPTDEPENDS ++
      p.canonCopy.keyLines PROVIDES ++ p.canonCopy.keyLines CONFLICTS ++
      p.canonCopy.keyLines REPLACES ++ p.canonCopy.keyLines BACKUP ++
      p.canonCopy.keyLines OPTIONS ++ p.canonCopy.keyLines INSTALL ++
      p.canonCopy.keyLines CHANGELOG ++ p.canonCopy.keyLines SOURCE ++
      p.canonCopy.keyLines NOEXTRACT ++ p.canonCopy.keyLines MD5SUMS ++
      p.canonCopy.keyLines SHA1SUMS ++ p.canonCopy.keyLines SHA256SUMS ++
      p.canonCopy.typeLines TC_UVARIABLE ++
      (canonFunKeys.flatMap (fun k => p.canonCopy.keyLines k)) ++
      p.canonCopy.typeLines TC_SFUNCTION ++
      p.canonCopy.typeLines TC_UFUNCTION ++
      p.canonCopy.typeLines TC_UNKNOWN, ?_⟩, hget⟩
  rw [hmain]
  simp [canonVarKeys, List.append_assoc]

end Pkg
